import Mathlib

/-!
Shallow embedding of the batched register-access core shared by the
MCU_keyhole example scripts (i2c / adxl345 / gy33-i2c / sensor): the frame
assembler built on the serial `data` events, the single-in-flight
request/response correlator, the textual command codec, and the `Batch`
compiler/executor.  Definitions are translated from the JavaScript sources;
theorems settle the specification claims against them.
-/

namespace Keyhole

/-- A raw byte of the serial stream as the scripts observe it. -/
abbrev Byte := Nat

/-- Receive state of a port: the fixed-capacity `recvBuffer` created by
`Buffer.alloc` and the write cursor `recvPosition`. -/
structure AsmState where
  buf : List Byte
  pos : Nat
deriving DecidableEq

/-- Fresh receive state: `port.recvBuffer = Buffer.alloc cap` (zero filled),
`port.recvPosition = 0`. -/
def AsmState.init (cap : Nat) : AsmState :=
  ⟨List.replicate cap 0, 0⟩

/-- Node `Buffer.copy` as used by `data.copy(port.recvBuffer, port.recvPosition)`:
the number of copied bytes is clamped to the room left in the target, so bytes
that do not fit are silently dropped. -/
def copyInto (target : List Byte) (start : Nat) (src : List Byte) : List Byte :=
  let copied := min src.length (target.length - start)
  target.take start ++ src.take copied ++ target.drop (start + copied)

/-- One activation of the data handler (src/unnamed/part_002 lines 35-45):
copy the chunk at the cursor, advance the cursor by the full chunk length and,
when the last byte of the chunk is the NUL terminator, emit
`recvBuffer.subarray(0, recvPosition)` and reset the cursor.  The copy is
clamped to the room left in the buffer (with the cursor at or past the end,
`Buffer.copy` silently copies zero bytes); the handler never fails. -/
def feed (s : AsmState) (d : List Byte) : AsmState × Option (List Byte) :=
  let buf := copyInto s.buf s.pos d
  let pos := s.pos + d.length
  if d.getLast? = some 0 then
    (⟨buf, 0⟩, some (buf.take pos))
  else
    (⟨buf, pos⟩, none)

/-- Feed a list of chunks in order, collecting the frames emitted. -/
def feedAll (s : AsmState) : List (List Byte) → AsmState × List (List Byte)
  | [] => (s, [])
  | d :: ds =>
    match feed s d with
    | (s1, none) => feedAll s1 ds
    | (s1, some fr) =>
      match feedAll s1 ds with
      | (s2, frs) => (s2, fr :: frs)

/-- The frames produced by a sequence of chunks starting from a receive state. -/
def framesAfter (s : AsmState) (chunks : List (List Byte)) : List (List Byte) :=
  (feedAll s chunks).2

/-- A receive state whose buffer holds the byte prefix `p` followed by the
zero fill of a capacity-`cap` allocation, with the cursor right after `p`.
This is the shape every reachable assembler state has between frames. -/
def stateOf (cap : Nat) (p : List Byte) : AsmState :=
  ⟨p ++ List.replicate (cap - p.length) 0, p.length⟩

/-- Events the serial port can deliver while a request is outstanding:
a chunk of response bytes, or a port error. -/
inductive Ev where
  | data (chunk : List Byte)
  | err
deriving DecidableEq

/-- The transport state the scripts hang off the port object: the receive
buffer state, whether `onData` currently holds a promise resolver (a pending
request), whether the port has been closed, and the log of commands written. -/
structure Port where
  asm : AsmState
  pending : Bool
  closed : Bool
  written : List String
deriving DecidableEq

/-- Deliver events to an in-flight request until its promise settles.
A data chunk goes through the assembler; a completed frame resolves the
promise and restores the default handler (`port.onData = defaultDataRecvFunc`).
An error event rejects the promise, whose `catch` closes the port and rethrows
as `Port error`. -/
def processEvents (p : Port) : List Ev → Port × Option (Except String (List Byte))
  | [] => (p, none)
  | Ev.err :: _ =>
    ({ p with closed := true }, some (.error "Port error"))
  | Ev.data c :: rest =>
    match feed p.asm c with
    | (a, some fr) => ({ p with asm := a, pending := false }, some (.ok fr))
    | (a, none) => processEvents { p with asm := a } rest

/-- The `response(req)` function (src/unnamed/part_000 lines 50-59 and its
clones): unconditionally install `onData`/`onError` as the promise resolvers
and write the request to the port, then wait for events to settle the promise.
Modelled from the spec for the external serialport collaborator: a write on a
closed port reports an error, which rejects the promise at once, so no bytes
are transmitted or logged. -/
def response (p : Port) (req : String) (evs : List Ev) :
    Port × Option (Except String (List Byte)) :=
  let p1 : Port := { p with pending := true }
  if p1.closed then
    (p1, some (.error "Port error"))
  else
    processEvents { p1 with written := p1.written ++ [req] } evs

/-- Most-significant-first hex digits of `n`, accumulator style, mirroring the
digit loop of JavaScript `Number.prototype.toString(16)`.  The first argument
is fuel; `n` itself is always enough fuel since `n / 16 < n` for `0 < n`. -/
def toHexAux : Nat → Nat → List Char → List Char
  | 0, _, acc => acc
  | fuel + 1, n, acc =>
    if n = 0 then acc else toHexAux fuel (n / 16) (Nat.digitChar (n % 16) :: acc)

/-- JavaScript `n.toString(16)` for a non-negative integer: lowercase hex
digits, no `0x` prefix, no padding, and `"0"` for zero. -/
def natHex (n : Nat) : String :=
  if n = 0 then "0" else String.mk (toHexAux n n [])

/-- JavaScript `n.toString(16)` on a possibly negative integer: a leading
minus sign followed by the hex digits of the magnitude. -/
def intHex (i : Int) : String :=
  if i < 0 then "-" ++ natHex (-i).toNat else natHex i.toNat

/-- JavaScript `x >>> 0` on an integer: reduction to the unsigned 32-bit range. -/
def toUint32 (i : Int) : Nat :=
  (i % (2 ^ 32 : Int)).toNat

/-- The `widthModifier(size)` helper (src/unnamed/part_000 lines 91-101):
an absent width yields the empty modifier, widths 1/2/4 map to `b`/`w`/`d`,
anything else throws `Unknown width modifier`. -/
def widthModifier : Option Nat → Except String String
  | none => .ok ""
  | some 1 => .ok "b"
  | some 2 => .ok "w"
  | some 4 => .ok "d"
  | some _ => .error "Unknown width modifier"

/-- The request string built by the direct `write(addr, data)` path
(src/unnamed/part_000 lines 61-68): the value is masked with `>>> 0`. -/
def writeRequest (addr : Nat) (data : Int) : String :=
  "w " ++ natHex addr ++ " " ++ natHex (toUint32 data) ++ "\n"

/-- The request string built by the direct `read(addr)` path
(src/unnamed/part_000 lines 70-79). -/
def readRequest (addr : Nat) : String :=
  "r " ++ natHex addr ++ "\n"

/-- The wait identifier of `Batch.wait`: `((value & 1) << 5) | (bit & 0x1f)`. -/
def waitId (bit value : Nat) : Nat :=
  ((value &&& 1) <<< 5) ||| (bit &&& 0x1f)

/-- The command appended by `Batch.wait(addr, bit, value, width)`
(src/unnamed/part_000 lines 120-130). -/
def waitCmd (addr bit value : Nat) (width : Option Nat) : Except String String := do
  let w ← widthModifier width
  .ok ("u" ++ w ++ " " ++ natHex addr ++ " " ++ natHex (waitId bit value))

/-- The command appended by `Batch.read(addr, width)`
(src/unnamed/part_000 lines 132-137). -/
def readCmd (addr : Nat) (width : Option Nat) : Except String String := do
  let w ← widthModifier width
  .ok ("r" ++ w ++ " " ++ natHex addr)

/-- The command appended by `Batch.write(addr, value, width)`
(src/unnamed/part_000 lines 139-148): the value is rendered with plain
`value.toString(16)` and is not masked to 32 bits. -/
def writeCmd (addr : Nat) (value : Int) (width : Option Nat) : Except String String := do
  let w ← widthModifier width
  .ok ("w" ++ w ++ " " ++ natHex addr ++ " " ++ intHex value)

/-- Hex digit value of a character, both cases, as `parseInt(x, 16)` accepts. -/
def hexDigit? (c : Char) : Option Nat :=
  if '0' ≤ c ∧ c ≤ '9' then some (c.toNat - Char.toNat '0')
  else if 'a' ≤ c ∧ c ≤ 'f' then some (c.toNat - Char.toNat 'a' + 10)
  else if 'A' ≤ c ∧ c ≤ 'F' then some (c.toNat - Char.toNat 'A' + 10)
  else none

/-- Consume the maximal run of leading hex digits, `none` while no digit has
been consumed yet (JavaScript `NaN`). -/
def parseHexAux : List Char → Option Nat → Option Nat
  | [], acc => acc
  | c :: cs, acc =>
    match hexDigit? c with
    | some d => parseHexAux cs (some (acc.getD 0 * 16 + d))
    | none => acc

/-- Leading whitespace skipped by `parseInt`. -/
def isJsSpace (c : Char) : Bool :=
  c = ' ' ∨ c = '\t' ∨ c = '\n' ∨ c = '\r'

/-- An optional `0x` / `0X` prefix accepted by `parseInt` at radix 16. -/
def strip0x : List Char → List Char
  | '0' :: 'x' :: rest => rest
  | '0' :: 'X' :: rest => rest
  | cs => cs

/-- JavaScript `parseInt(x, 16)` over the characters: skip whitespace, take an
optional sign and an optional `0x` prefix, then the maximal run of hex digits;
`none` is `NaN`. -/
def parseIntHexChars (cs : List Char) : Option Int :=
  match cs.dropWhile isJsSpace with
  | '-' :: rest => (parseHexAux (strip0x rest) none).map (fun n => -(n : Int))
  | '+' :: rest => (parseHexAux (strip0x rest) none).map (fun n => (n : Int))
  | cs1 => (parseHexAux (strip0x cs1) none).map (fun n => (n : Int))

/-- JavaScript `parseInt(s, 16)` on a string. -/
def parseIntHex (s : String) : Option Int :=
  parseIntHexChars s.data

/-- JavaScript `split` on the pipe separator, character by character:
an empty string yields one empty field, and every pipe starts a new field. -/
def splitPipe : List Char → List (List Char)
  | [] => [[]]
  | c :: cs =>
    match splitPipe cs with
    | [] => if c = Char.ofNat 124 then [[], []] else [[c]]
    | fld :: rest =>
      if c = Char.ofNat 124 then [] :: fld :: rest else (c :: fld) :: rest

/-- The decode step of the direct `read` path (src/unnamed/part_000 lines
70-79): `parseInt(str, 16)` followed by the `isNaN` check that throws
`Response parser error`. -/
def readDecode (s : String) : Except String Int :=
  match parseIntHex s with
  | none => .error "Response parser error"
  | some n => .ok n

/-- A JavaScript value observable in a batch result: a number, `NaN` from a
failed `parseInt`, or `undefined` from an out-of-range array index. -/
inductive JsVal where
  | num (n : Int)
  | nan
  | undefined
deriving DecidableEq

/-- What `Batch.run` returns: a bare scalar or an array. -/
inductive RunResult where
  | scalar (v : JsVal)
  | list (vs : List JsVal)
deriving DecidableEq

/-- The decode step of `Batch.run`: split the response text on the pipe
separator and map `parseInt(x, 16)` over the fields, with `none` standing for
`NaN`.  No field is ever rejected. -/
def decodeResp (resp : String) : List (Option Int) :=
  (splitPipe resp.data).map parseIntHexChars

/-- JavaScript `result[i]` on the decoded field array: `undefined` outside the
bounds, `NaN` for a field `parseInt` failed on, the number otherwise. -/
def project (fields : List (Option Int)) (i : Int) : JsVal :=
  if 0 ≤ i ∧ i.toNat < fields.length then
    match fields.getD i.toNat none with
    | some n => .num n
    | none => .nan
  else .undefined

/-- The full decoded field array as JavaScript values (numbers and `NaN`). -/
def fieldsToVals (fields : List (Option Int)) : List JsVal :=
  fields.map (fun f => match f with | some n => JsVal.num n | none => JsVal.nan)

/-- The multi-result `Batch` of src/gy33-i2c.js lines 119-191 and
src/unnamed/part_002 lines 92-142: the appended command strings, the list of
result-marked indices pushed by `setAsResult`, and the memoized serialization. -/
structure Batch where
  chain : List String
  resultCommand : List Int
  cache : Option String
deriving DecidableEq

/-- A freshly constructed `Batch`. -/
def Batch.empty : Batch :=
  ⟨[], [], none⟩

/-- `Batch.wait(addr, bit, value, width)` appends a `u` command. -/
def Batch.wait (b : Batch) (addr bit value : Nat) (width : Option Nat) :
    Except String Batch :=
  match waitCmd addr bit value width with
  | .error e => .error e
  | .ok cmd => .ok { b with chain := b.chain ++ [cmd] }

/-- `Batch.read(addr, width)` appends an `r` command. -/
def Batch.read (b : Batch) (addr : Nat) (width : Option Nat) : Except String Batch :=
  match readCmd addr width with
  | .error e => .error e
  | .ok cmd => .ok { b with chain := b.chain ++ [cmd] }

/-- `Batch.write(addr, value, width)` appends a `w` command. -/
def Batch.write (b : Batch) (addr : Nat) (value : Int) (width : Option Nat) :
    Except String Batch :=
  match writeCmd addr value width with
  | .error e => .error e
  | .ok cmd => .ok { b with chain := b.chain ++ [cmd] }

/-- `setAsResult()` pushes `this.index - 1` onto `resultCommand`. -/
def Batch.setAsResult (b : Batch) : Batch :=
  { b with resultCommand := b.resultCommand ++ [(b.chain.length : Int) - 1] }

/-- `Batch.get()` (serialize): `Empty batch` when nothing was appended,
otherwise the commands joined by the pipe separator plus the terminator. -/
def Batch.get (b : Batch) : Except String String :=
  if b.chain.length = 0 then .error "Empty batch"
  else .ok (String.intercalate "|" b.chain ++ "\n")

/-- The projection performed at the end of `Batch.run`: map the marked indices
over the decoded fields, collapsing a singleton into a bare scalar. -/
def projectResult (marks : List Int) (resp : String) : RunResult :=
  let translated := marks.map (project (decodeResp resp))
  if translated.length = 1 then .scalar (translated.getD 0 .undefined)
  else .list translated

/-- `Batch.run()` (src/gy33-i2c.js lines 175-190), parameterized by the
response frame text the correlator hands back: fill the cache on first use,
send the cached command, decode the response and project the marked fields.
Returns the updated batch, the command string actually sent and the result. -/
def Batch.run (b : Batch) (resp : String) :
    Except String (Batch × String × RunResult) :=
  match b.cache with
  | some c => .ok (b, c, projectResult b.resultCommand resp)
  | none =>
    match b.get with
    | .error e => .error e
    | .ok c => .ok ({ b with cache := some c }, c, projectResult b.resultCommand resp)

/-- The single-result `Batch` variant of src/unnamed/part_000 lines 112-183:
`resultCommand` is a single optional index instead of a list. -/
structure BatchS where
  chain : List String
  resultCommand : Option Int
  cache : Option String
deriving DecidableEq

/-- A freshly constructed single-result batch. -/
def BatchS.empty : BatchS :=
  ⟨[], none, none⟩

/-- `setAsResult()` of the single-result variant: throws `Result is already
set` on a second call. -/
def BatchS.setAsResult (b : BatchS) : Except String BatchS :=
  match b.resultCommand with
  | none => .ok { b with resultCommand := some ((b.chain.length : Int) - 1) }
  | some _ => .error "Result is already set"

/-- `Batch.get()` of the single-result variant, identical serialization. -/
def BatchS.get (b : BatchS) : Except String String :=
  if b.chain.length = 0 then .error "Empty batch"
  else .ok (String.intercalate "|" b.chain ++ "\n")

/-- The result of the single-result `run()`: the field at the marked index if
one was marked, otherwise the whole decoded field array. -/
def projectResultS (mark : Option Int) (resp : String) : RunResult :=
  match mark with
  | some i => .scalar (project (decodeResp resp) i)
  | none => .list (fieldsToVals (decodeResp resp))

/-- `Batch.run()` of the single-result variant (src/unnamed/part_000 lines
169-182), parameterized by the response frame text. -/
def BatchS.run (b : BatchS) (resp : String) :
    Except String (BatchS × String × RunResult) :=
  match b.cache with
  | some c => .ok (b, c, projectResultS b.resultCommand resp)
  | none =>
    match b.get with
    | .error e => .error e
    | .ok c => .ok ({ b with cache := some c }, c, projectResultS b.resultCommand resp)

/-- Operations that can be appended to a batch after it was first run, for
stating cache stability. -/
inductive BOp where
  | wr (addr : Nat) (value : Int) (width : Option Nat)
  | rd (addr : Nat) (width : Option Nat)
  | wt (addr bit value : Nat) (width : Option Nat)
deriving DecidableEq

/-- Apply one append operation to a batch. -/
def applyOp (b : Batch) : BOp → Except String Batch
  | .wr addr value width => b.write addr value width
  | .rd addr width => b.read addr width
  | .wt addr bit value width => b.wait addr bit value width

/-- Apply a list of append operations in order. -/
def applyOps (b : Batch) : List BOp → Except String Batch
  | [] => .ok b
  | op :: ops =>
    match applyOp b op with
    | .error e => .error e
    | .ok b1 => applyOps b1 ops

/-! Helper lemmas about the assembler and the correlator. -/

theorem length_copyInto (target : List Byte) (start : Nat) (src : List Byte)
    (h : start ≤ target.length) :
    (copyInto target start src).length = target.length := by
  unfold copyInto
  simp only [List.length_append, List.length_take, List.length_drop]
  omega

theorem copyInto_past_end (target : List Byte) (start : Nat) (src : List Byte)
    (h : target.length ≤ start) : copyInto target start src = target := by
  unfold copyInto
  have hmin : min src.length (target.length - start) = 0 := by omega
  simp only [hmin, List.take_zero, List.take_of_length_le h, Nat.add_zero,
    List.drop_eq_nil_of_le h, List.append_nil]

theorem copyInto_fits (target : List Byte) (start : Nat) (src : List Byte)
    (h : start + src.length ≤ target.length) :
    copyInto target start src =
      target.take start ++ src ++ target.drop (start + src.length) := by
  unfold copyInto
  have hmin : min src.length (target.length - start) = src.length := by omega
  simp only [hmin, List.take_length]

theorem processEvents_fst_written (evs : List Ev) :
    ∀ p : Port, ((processEvents p evs).1).written = p.written := by
  induction evs with
  | nil => intro p; rfl
  | cons e rest ih =>
    intro p
    cases e with
    | err => rfl
    | data c =>
      simp only [processEvents]
      split
      · rfl
      · exact ih _

theorem feed_no_term (cap : Nat) (p c : List Byte)
    (hfit : p.length + c.length ≤ cap) (hc : c.getLast? ≠ some 0) :
    feed (stateOf cap p) c = (stateOf cap (p ++ c), none) := by
  have h2 : copyInto (stateOf cap p).buf (stateOf cap p).pos c =
      (p ++ c) ++ List.replicate (cap - (p ++ c).length) 0 := by
    show copyInto (p ++ List.replicate (cap - p.length) 0) p.length c = _
    rw [copyInto_fits _ _ _
      (by simp only [List.length_append, List.length_replicate]; omega)]
    rw [List.take_left, List.drop_append c.length, List.drop_replicate]
    simp only [List.append_assoc, List.length_append, Nat.sub_sub]
  unfold feed
  rw [if_neg hc, h2]
  simp only [stateOf, List.length_append]

theorem feed_term (cap : Nat) (p c : List Byte)
    (hfit : p.length + c.length ≤ cap) (hc : c.getLast? = some 0) :
    feed (stateOf cap p) c =
      (⟨(p ++ c) ++ List.replicate (cap - (p ++ c).length) 0, 0⟩,
        some (p ++ c)) := by
  have h2 : copyInto (stateOf cap p).buf (stateOf cap p).pos c =
      (p ++ c) ++ List.replicate (cap - (p ++ c).length) 0 := by
    show copyInto (p ++ List.replicate (cap - p.length) 0) p.length c = _
    rw [copyInto_fits _ _ _
      (by simp only [List.length_append, List.length_replicate]; omega)]
    rw [List.take_left, List.drop_append c.length, List.drop_replicate]
    simp only [List.append_assoc, List.length_append, Nat.sub_sub]
  unfold feed
  rw [if_pos hc, h2]
  rw [List.take_left' (by simp [stateOf])]

theorem feed_empty (s : AsmState) : feed s [] = (s, none) := by
  have h2 : copyInto s.buf s.pos [] = s.buf := by
    unfold copyInto
    simp [List.take_append_drop]
  unfold feed
  rw [if_neg (by simp), h2]
  simp

theorem feedAll_empties (cs : List (List Byte)) (hcs : ∀ c ∈ cs, c = []) :
    ∀ s : AsmState, feedAll s cs = (s, []) := by
  induction cs with
  | nil => intro s; rfl
  | cons c rest ih =>
    intro s
    have hc : c = [] := hcs c (by simp)
    subst hc
    have hrest : ∀ x ∈ rest, x = [] := fun x hx => hcs x (by simp [hx])
    simp only [feedAll, feed_empty s]
    exact ih hrest s

theorem feedAll_chunked (cap : Nat) (ws : List Byte)
    (hlast : ws.getLast? = some 0) (hmid : ∀ b ∈ ws.dropLast, b ≠ 0)
    (hcap : ws.length ≤ cap) :
    ∀ (chunks : List (List Byte)) (p : List Byte),
      p ++ chunks.flatten = ws → chunks.flatten ≠ [] →
      feedAll (stateOf cap p) chunks =
        (⟨ws ++ List.replicate (cap - ws.length) 0, 0⟩, [ws]) := by
  intro chunks
  induction chunks with
  | nil =>
    intro p hjoin hne
    exact absurd rfl hne
  | cons c rest ih =>
    intro p hjoin hne
    rw [List.flatten_cons] at hjoin hne
    by_cases hc : c = []
    · subst hc
      rw [List.nil_append] at hjoin hne
      have hfeed := feed_empty (stateOf cap p)
      simp only [feedAll, hfeed]
      exact ih p hjoin hne
    · by_cases hr : rest.flatten = []
      · have hpc : p ++ c = ws := by simpa [hr] using hjoin
        have hclast : c.getLast? = some 0 := by
          have hx : (p ++ c).getLast? = some 0 := by rw [hpc]; exact hlast
          rwa [List.getLast?_append_of_ne_nil _ hc] at hx
        have hfit : p.length + c.length ≤ cap := by
          have hl := congrArg List.length hpc
          simp only [List.length_append] at hl
          omega
        have hstep := feed_term cap p c hfit hclast
        have hrest_empty : ∀ x ∈ rest, x = [] := List.flatten_eq_nil_iff.mp hr
        have hempty := feedAll_empties rest hrest_empty
          ⟨(p ++ c) ++ List.replicate (cap - (p ++ c).length) 0, 0⟩
        rw [hpc] at hstep hempty
        simp only [feedAll, hstep, hempty]
      · have hfit : p.length + c.length ≤ cap := by
          have hl := congrArg List.length hjoin
          simp only [List.length_append] at hl
          omega
        have hclast : c.getLast? ≠ some 0 := by
          intro hcon
          obtain ⟨ys, hys⟩ := List.getLast?_eq_some_iff.mp hcon
          have hsplit : ws.dropLast = p ++ (c ++ rest.flatten.dropLast) := by
            rw [← hjoin, List.dropLast_append_of_ne_nil _
              (by simp [hr] : c ++ rest.flatten ≠ []),
              List.dropLast_append_of_ne_nil _ hr]
          have h0 : (0 : Byte) ∈ ws.dropLast := by
            rw [hsplit, hys]
            simp
          exact hmid 0 h0 rfl
        have hstep := feed_no_term cap p c hfit hclast
        simp only [feedAll, hstep]
        exact ih (p ++ c) (by rw [List.append_assoc]; exact hjoin) hr

/-- Claim C2 (amended): chunk-boundary invariance holds only for streams in
which the terminator byte occurs exactly once, as the final byte (the shape
the device actually produces): any partition of such a stream that fits the
buffer yields the single frame equal to the whole stream, the same as feeding
it in one chunk.  It fails for general streams because the handler only tests
the final byte of each chunk (see the counterexample). -/
theorem claim_C2_thm (cap : Nat) (ws : List Byte) (chunks : List (List Byte))
    (h1 : chunks.flatten = ws) (h2 : ws.getLast? = some 0)
    (h3 : ∀ b ∈ ws.dropLast, b ≠ 0) (h4 : ws.length ≤ cap) :
    framesAfter (AsmState.init cap) chunks = [ws] ∧
    framesAfter (AsmState.init cap) [ws] = [ws] := by
  have hwne : ws ≠ [] := by
    intro h
    rw [h] at h2
    simp at h2
  have hbase : AsmState.init cap = stateOf cap [] := by
    simp [AsmState.init, stateOf]
  constructor
  · have hall := feedAll_chunked cap ws h2 h3 h4 chunks []
      (by simpa using h1) (by rw [h1]; exact hwne)
    rw [hbase]
    unfold framesAfter
    rw [hall]
  · have hall := feedAll_chunked cap ws h2 h3 h4 [ws] []
      (by simp) (by simpa using hwne)
    rw [hbase]
    unfold framesAfter
    rw [hall]

/-- Witness for C2: the stream `0|1` plus NUL terminator fed split or whole
yields the identical single frame. -/
theorem claim_C2_wit :
    framesAfter (AsmState.init 8) [[48], [49, 0]] = [[48, 49, 0]] ∧
    framesAfter (AsmState.init 8) [[48, 49, 0]] = [[48, 49, 0]] :=
  claim_C2_thm 8 [48, 49, 0] [[48], [49, 0]] (by decide) (by decide)
    (by decide) (by decide)

/-- Counterexample to C2 as stated: the stream `[48, 0, 49]` fed whole emits
no frame (its final byte is not the terminator), but the partition
`[[48, 0], [49]]` of the same stream emits the frame `[48, 0]`, because the
handler only inspects the last byte of each arriving chunk. -/
theorem claim_C2_cex :
    framesAfter (AsmState.init 8) [[48, 0, 49]] = [] ∧
    framesAfter (AsmState.init 8) [[48, 0], [49]] = [[48, 0]] :=
  ⟨rfl, rfl⟩

/-- Claim C1 (amended): `response` performs no in-flight check at all — called
in any open-port state, pending request or not, it overwrites the handlers and
unconditionally writes the command to the transport; no `RequestInFlight`
failure exists anywhere in the code. -/
theorem claim_C1_thm (p : Port) (req : String) (evs : List Ev)
    (h : p.closed = false) :
    ((response p req evs).1).written = p.written ++ [req] := by
  simp only [response, h, Bool.false_eq_true, if_false]
  rw [processEvents_fst_written]

/-- Witness for C1 at a concrete pending state. -/
theorem claim_C1_wit :
    ((response ⟨AsmState.init 8, true, false, []⟩ "r 5\n" []).1).written =
      [] ++ ["r 5\n"] :=
  claim_C1_thm ⟨AsmState.init 8, true, false, []⟩ "r 5\n" [] rfl

/-- Counterexample to C1 as stated: with a request already pending
(`pending = true`), a second `response` call does not fail with
`RequestInFlight`; it writes the second command to the transport and leaves
the promise unsettled. -/
theorem claim_C1_cex :
    response ⟨AsmState.init 8, true, false, []⟩ "r 5\n" [] =
      (⟨AsmState.init 8, true, false, ["r 5\n"]⟩, none) := rfl

/-- Claim C4: a transport error while a request is pending fails the pending
future with the transport error (`Port error`) and closes the port, and any
subsequent `response` call on the resulting state fails fast with the same
error, writing nothing further to the transport. -/
theorem claim_C4_thm (p : Port) (req req2 : String) (evs evs2 : List Ev)
    (h : p.closed = false) :
    (response p req (Ev.err :: evs)).2 = some (.error "Port error") ∧
    ((response p req (Ev.err :: evs)).1).closed = true ∧
    response (response p req (Ev.err :: evs)).1 req2 evs2 =
      ({ (response p req (Ev.err :: evs)).1 with pending := true },
        some (.error "Port error")) := by
  simp [response, h, processEvents]

/-- Witness for C4 at a concrete open-port state. -/
theorem claim_C4_wit :
    (response ⟨AsmState.init 8, false, false, []⟩ "r 5\n" [Ev.err]).2 =
      some (.error "Port error") ∧
    ((response ⟨AsmState.init 8, false, false, []⟩ "r 5\n" [Ev.err]).1).closed = true ∧
    response (response ⟨AsmState.init 8, false, false, []⟩ "r 5\n" [Ev.err]).1 "r 6\n" [] =
      ({ (response ⟨AsmState.init 8, false, false, []⟩ "r 5\n" [Ev.err]).1 with
          pending := true }, some (.error "Port error")) :=
  claim_C4_thm ⟨AsmState.init 8, false, false, []⟩ "r 5\n" "r 6\n" [Ev.err] [] rfl

/-- Claim C5 (amended): a frame emitted by the assembler is the buffered bytes
up to and including the terminator — the terminator byte is not stripped, so
every emitted frame ends with it. -/
theorem claim_C5_thm (s : AsmState) (d : List Byte) (s1 : AsmState)
    (fr : List Byte) (hfit : s.pos + d.length ≤ s.buf.length)
    (h : feed s d = (s1, some fr)) :
    fr = s.buf.take s.pos ++ d ∧ fr.getLast? = some 0 := by
  have hd : d ≠ [] := by
    intro hnil
    rw [hnil, feed_empty] at h
    simp at h
  unfold feed at h
  by_cases ht : d.getLast? = some 0
  · rw [if_pos ht] at h
    simp only [Prod.mk.injEq, Option.some.injEq] at h
    have hfr : fr = (copyInto s.buf s.pos d).take (s.pos + d.length) := h.2.symm
    rw [copyInto_fits s.buf s.pos d hfit] at hfr
    have hlen : (s.buf.take s.pos ++ d).length = s.pos + d.length := by
      simp only [List.length_append, List.length_take]
      omega
    rw [List.take_left' hlen] at hfr
    refine ⟨hfr, ?_⟩
    rw [hfr, List.getLast?_append_of_ne_nil _ hd]
    exact ht
  · rw [if_neg ht] at h
    simp at h

/-- Witness for C5 at a concrete feed that completes a frame. -/
theorem claim_C5_wit :
    ([48, 0] : List Byte) =
      (AsmState.init 4).buf.take (AsmState.init 4).pos ++ [48, 0] ∧
    ([48, 0] : List Byte).getLast? = some 0 :=
  claim_C5_thm (AsmState.init 4) [48, 0] ⟨[48, 0, 0, 0], 0⟩ [48, 0]
    (by decide) (by rfl)

/-- Counterexample to C5 as stated: feeding the frame text `0` plus the NUL
terminator emits the frame `[48, 0]`, which contains the terminator byte. -/
theorem claim_C5_cex :
    feed (AsmState.init 4) [48, 0] = (⟨[48, 0, 0, 0], 0⟩, some [48, 0]) ∧
    (0 : Byte) ∈ [48, 0] :=
  ⟨rfl, by decide⟩

/-- Claim C10 (amended): the data handler performs no capacity check and never
fails — no `BufferOverflow` error exists.  A non-terminator chunk always
succeeds with the cursor advanced by the full chunk length, while the copy is
clamped: with the cursor in bounds the buffer keeps its fixed capacity (bytes
past the capacity silently dropped), and with the cursor at or past the end
`Buffer.copy` silently writes nothing, leaving the buffer unchanged. -/
theorem claim_C10_thm (s : AsmState) (d : List Byte)
    (hterm : d.getLast? ≠ some 0) :
    feed s d = (⟨copyInto s.buf s.pos d, s.pos + d.length⟩, none) ∧
    (s.pos ≤ s.buf.length → (copyInto s.buf s.pos d).length = s.buf.length) ∧
    (s.buf.length ≤ s.pos → copyInto s.buf s.pos d = s.buf) := by
  refine ⟨?_, fun h => length_copyInto s.buf s.pos d h,
    fun h => copyInto_past_end s.buf s.pos d h⟩
  unfold feed
  rw [if_neg hterm]

/-- Witness for C10 at a feed that overruns a 4-byte buffer. -/
theorem claim_C10_wit :
    feed ⟨[0, 0, 0, 0], 0⟩ [1, 2, 3, 4, 5, 6] =
      (⟨copyInto [0, 0, 0, 0] 0 [1, 2, 3, 4, 5, 6], 0 + 6⟩, none) ∧
    ((0 : Nat) ≤ ([0, 0, 0, 0] : List Byte).length →
      (copyInto [0, 0, 0, 0] 0 [1, 2, 3, 4, 5, 6]).length =
        ([0, 0, 0, 0] : List Byte).length) ∧
    (([0, 0, 0, 0] : List Byte).length ≤ 0 →
      copyInto [0, 0, 0, 0] 0 [1, 2, 3, 4, 5, 6] = [0, 0, 0, 0]) :=
  claim_C10_thm ⟨[0, 0, 0, 0], 0⟩ [1, 2, 3, 4, 5, 6] (by decide)

/-- Counterexample to C10 as stated: six bytes fed into a 4-byte buffer do not
fail with `BufferOverflow` — the feed succeeds, silently truncating to the
first four bytes while the cursor advances to 6; and the next chunk, arriving
with the cursor past the end, is silently dropped whole, again without any
error. -/
theorem claim_C10_cex :
    feed ⟨[0, 0, 0, 0], 0⟩ [1, 2, 3, 4, 5, 6] = (⟨[1, 2, 3, 4], 6⟩, none) ∧
    feed ⟨[1, 2, 3, 4], 6⟩ [7, 8] = (⟨[1, 2, 3, 4], 8⟩, none) :=
  ⟨rfl, rfl⟩

/-! Lemmas about the hex rendering and the command codec. -/

theorem toHexAux_zero (fuel : Nat) (acc : List Char) : toHexAux fuel 0 acc = acc := by
  cases fuel with
  | zero => rfl
  | succ f => simp [toHexAux]

theorem toHexAux_head (fuel : Nat) :
    ∀ (n : Nat) (acc : List Char), 0 < n → n ≤ fuel →
      ∃ d rest, toHexAux fuel n acc = Nat.digitChar d :: rest ∧ 0 < d ∧ d < 16 := by
  induction fuel with
  | zero =>
    intro n acc h1 h2
    omega
  | succ f ih =>
    intro n acc h1 h2
    rw [toHexAux, if_neg (by omega)]
    by_cases hq : n / 16 = 0
    · rw [hq, toHexAux_zero]
      exact ⟨n % 16, acc, rfl, by omega, by omega⟩
    · have hle : n / 16 ≤ f := by
        have hlt : n / 16 < n := Nat.div_lt_self h1 (by norm_num)
        omega
      exact ih (n / 16) (Nat.digitChar (n % 16) :: acc) (Nat.pos_of_ne_zero hq) hle

theorem digitChar_mem_hex : ∀ m : Nat, m < 16 → Nat.digitChar m ∈ "0123456789abcdef".data := by
  decide

theorem toHexAux_chars (fuel : Nat) :
    ∀ (n : Nat) (acc : List Char), (∀ ch ∈ acc, ch ∈ "0123456789abcdef".data) →
      ∀ ch ∈ toHexAux fuel n acc, ch ∈ "0123456789abcdef".data := by
  induction fuel with
  | zero => intro n acc hacc; exact hacc
  | succ f ih =>
    intro n acc hacc
    by_cases h : n = 0
    · rw [toHexAux, if_pos h]
      exact hacc
    · rw [toHexAux, if_neg h]
      apply ih
      intro ch hch
      rcases List.mem_cons.mp hch with hd | htl
      · rw [hd]
        exact digitChar_mem_hex (n % 16) (Nat.mod_lt n (by norm_num))
      · exact hacc ch htl

theorem natHex_no_leading_zero (n : Nat) (h : n ≠ 0) :
    (natHex n).data.head? ≠ some '0' := by
  obtain ⟨d, rest, heq, hd1, hd2⟩ :=
    toHexAux_head n n [] (Nat.pos_of_ne_zero h) (Nat.le_refl n)
  unfold natHex
  rw [if_neg h]
  show (toHexAux n n []).head? ≠ some '0'
  rw [heq]
  have hne : ∀ m : Nat, m < 16 → 0 < m → Nat.digitChar m ≠ '0' := by decide
  simp only [List.head?_cons, ne_eq, Option.some.injEq]
  exact hne d hd2 hd1

theorem natHex_chars (n : Nat) :
    ∀ ch ∈ (natHex n).data, ch ∈ "0123456789abcdef".data := by
  unfold natHex
  by_cases h : n = 0
  · rw [if_pos h]
    decide
  · rw [if_neg h]
    exact toHexAux_chars n n [] (by simp)

theorem intHex_coe (n : Nat) : intHex (n : Int) = natHex n := by
  unfold intHex
  rw [if_neg (by omega)]
  simp

/-- Claim C6: the command codec encodes Write as `w<width?> <addr> <value>`,
Read as `r<width?> <addr>` and WaitBit as `u<width?> <addr> <waitid>` with
`waitid` equal to expectedValue AND 1 shifted left by 5, OR-ed with bitIndex AND 0x1f; the width modifier
maps implicit/1/2/4 to the empty string, `b`, `w`, `d` and rejects any other
width; numbers are lowercase hex with no `0x` prefix and no leading zeros; and
the direct write of value 0x101 to address 0x40005400 yields exactly
`w 40005400 101` plus the line terminator. -/
theorem claim_C6_thm :
    (widthModifier none = .ok "" ∧ widthModifier (some 1) = .ok "b" ∧
      widthModifier (some 2) = .ok "w" ∧ widthModifier (some 4) = .ok "d" ∧
      widthModifier (some 3) = .error "Unknown width modifier") ∧
    (∀ (addr value : Nat) (w : Option Nat) (m : String), widthModifier w = .ok m →
      writeCmd addr (value : Int) w =
        .ok ("w" ++ m ++ " " ++ natHex addr ++ " " ++ natHex value)) ∧
    (∀ (addr : Nat) (w : Option Nat) (m : String), widthModifier w = .ok m →
      readCmd addr w = .ok ("r" ++ m ++ " " ++ natHex addr)) ∧
    (∀ (addr bit value : Nat) (w : Option Nat) (m : String), widthModifier w = .ok m →
      waitCmd addr bit value w =
        .ok ("u" ++ m ++ " " ++ natHex addr ++ " " ++
          natHex (((value &&& 1) <<< 5) ||| (bit &&& 0x1f)))) ∧
    writeRequest 0x40005400 0x101 = "w 40005400 101\n" ∧
    (∀ n : Nat, n ≠ 0 → (natHex n).data.head? ≠ some '0') ∧
    (∀ n : Nat, ∀ ch ∈ (natHex n).data, ch ∈ "0123456789abcdef".data) := by
  refine ⟨⟨rfl, rfl, rfl, rfl, rfl⟩, ?_, ?_, ?_, by decide, natHex_no_leading_zero, natHex_chars⟩
  · intro addr value w m hw
    simp only [writeCmd, hw, intHex_coe]
    rfl
  · intro addr w m hw
    simp only [readCmd, hw]
    rfl
  · intro addr bit value w m hw
    simp only [waitCmd, hw, waitId]
    rfl

/-- Witness for C6 at concrete operands for each encoder. -/
theorem claim_C6_wit :
    writeCmd 10 ((257 : Nat) : Int) (some 2) =
      .ok ("w" ++ "w" ++ " " ++ natHex 10 ++ " " ++ natHex 257) ∧
    readCmd 10 none = .ok ("r" ++ "" ++ " " ++ natHex 10) ∧
    waitCmd 20 7 1 (some 1) =
      .ok ("u" ++ "b" ++ " " ++ natHex 20 ++ " " ++
        natHex (((1 &&& 1) <<< 5) ||| (7 &&& 0x1f))) ∧
    (natHex 171).data.head? ≠ some '0' :=
  ⟨claim_C6_thm.2.1 10 257 (some 2) "w" rfl,
    claim_C6_thm.2.2.1 10 none "" rfl,
    claim_C6_thm.2.2.2.1 20 7 1 (some 1) "b" rfl,
    claim_C6_thm.2.2.2.2.2.1 171 (by decide)⟩

/-- Claim C9 (amended): only the direct `write` path masks its value with
the unsigned-shift trick to the unsigned 32-bit range; `Batch.write` renders the signed value
with plain `toString(16)`, so negative values keep a minus sign and values of
2^32 or more are rendered unmasked. -/
theorem claim_C9_thm :
    (∀ (addr : Nat) (v : Int),
      writeRequest addr v =
        "w " ++ natHex addr ++ " " ++ natHex ((v % (2 ^ 32 : Int)).toNat) ++ "\n") ∧
    (∀ (addr : Nat) (v : Int) (w : Option Nat) (m : String), widthModifier w = .ok m →
      writeCmd addr v w = .ok ("w" ++ m ++ " " ++ natHex addr ++ " " ++ intHex v)) := by
  constructor
  · intro addr v
    rfl
  · intro addr v w m hw
    simp only [writeCmd, hw]
    rfl

/-- Witness for C9: the direct path masks -1 to ffffffff while the batch path
renders it as -1. -/
theorem claim_C9_wit :
    writeRequest 0 (-1) =
      "w " ++ natHex 0 ++ " " ++ natHex (((-1 : Int) % (2 ^ 32 : Int)).toNat) ++ "\n" ∧
    writeCmd 0 (-1) none = .ok ("w" ++ "" ++ " " ++ natHex 0 ++ " " ++ intHex (-1)) :=
  ⟨claim_C9_thm.1 0 (-1), claim_C9_thm.2 0 (-1) none "" rfl⟩

/-- Counterexample to C9 as stated: `Batch.write` of value -1 encodes the
value field as `-1`, not as the hex form `ffffffff` of -1 mod 2^32 that the
direct path produces. -/
theorem claim_C9_cex :
    writeCmd 0 (-1) none = .ok "w 0 -1" ∧
    natHex (toUint32 (-1)) = "ffffffff" ∧
    ("w 0 -1" : String) ≠ "w 0 ffffffff" := by
  refine ⟨rfl, rfl, by decide⟩

/-! Lemmas about the batch compiler and executor. -/

theorem Batch.get_of_ne_nil (b : Batch) (h : b.chain ≠ []) :
    b.get = .ok (String.intercalate "|" b.chain ++ "\n") := by
  unfold Batch.get
  rw [if_neg (fun hh => h (List.length_eq_zero.mp hh))]

theorem batch_run_proj (b : Batch) (resp : String) (h : b.chain ≠ []) :
    ∃ b1 s, b.run resp = .ok (b1, s, projectResult b.resultCommand resp) := by
  unfold Batch.run
  cases hb : b.cache with
  | some c => exact ⟨b, c, rfl⟩
  | none =>
    rw [Batch.get_of_ne_nil b h]
    exact ⟨_, _, rfl⟩

theorem batchS_run_proj (b : BatchS) (resp : String) (h : b.chain ≠ []) :
    ∃ b1 s, b.run resp = .ok (b1, s, projectResultS b.resultCommand resp) := by
  unfold BatchS.run
  cases hb : b.cache with
  | some c => exact ⟨b, c, rfl⟩
  | none =>
    have hg : b.get = .ok (String.intercalate "|" b.chain ++ "\n") := by
      unfold BatchS.get
      rw [if_neg (fun hh => h (List.length_eq_zero.mp hh))]
    rw [hg]
    exact ⟨_, _, rfl⟩

theorem project_num (fields : List (Option Int)) (i : Int) (v : Int)
    (h0 : 0 ≤ i) (h : fields.getD i.toNat none = some v) :
    project fields i = .num v := by
  have hk : i.toNat < fields.length := by
    by_contra hk2
    push_neg at hk2
    rw [List.getD_eq_getElem?_getD, List.getElem?_eq_none hk2] at h
    simp at h
  unfold project
  rw [if_pos ⟨h0, hk⟩]
  simp only [h]

theorem run_cache (b b1 : Batch) (resp s : String) (r : RunResult)
    (h : b.run resp = .ok (b1, s, r)) : b1.cache = some s := by
  unfold Batch.run at h
  cases hb : b.cache with
  | some c =>
    rw [hb] at h
    simp only [Except.ok.injEq, Prod.mk.injEq] at h
    rw [← h.1, hb, h.2.1]
  | none =>
    rw [hb] at h
    cases hg : b.get with
    | error e => rw [hg] at h; simp at h
    | ok c =>
      rw [hg] at h
      simp only [Except.ok.injEq, Prod.mk.injEq] at h
      rw [← h.1, h.2.1]

theorem applyOp_cache (b : Batch) (op : BOp) (b1 : Batch)
    (h : applyOp b op = .ok b1) : b1.cache = b.cache := by
  cases op with
  | wr addr value width =>
    simp only [applyOp, Batch.write] at h
    cases hc : writeCmd addr value width with
    | error e => rw [hc] at h; simp at h
    | ok cmd =>
      rw [hc] at h
      simp only [Except.ok.injEq] at h
      rw [← h]
  | rd addr width =>
    simp only [applyOp, Batch.read] at h
    cases hc : readCmd addr width with
    | error e => rw [hc] at h; simp at h
    | ok cmd =>
      rw [hc] at h
      simp only [Except.ok.injEq] at h
      rw [← h]
  | wt addr bit value width =>
    simp only [applyOp, Batch.wait] at h
    cases hc : waitCmd addr bit value width with
    | error e => rw [hc] at h; simp at h
    | ok cmd =>
      rw [hc] at h
      simp only [Except.ok.injEq] at h
      rw [← h]

theorem applyOps_cache (ops : List BOp) :
    ∀ b b1 : Batch, applyOps b ops = .ok b1 → b1.cache = b.cache := by
  induction ops with
  | nil =>
    intro b b1 h
    simp only [applyOps, Except.ok.injEq] at h
    rw [← h]
  | cons op rest ih =>
    intro b b1 h
    simp only [applyOps] at h
    cases ha : applyOp b op with
    | error e => rw [ha] at h; simp at h
    | ok b2 =>
      rw [ha] at h
      rw [ih b2 b1 h, applyOp_cache b op b2 ha]

/-- Claim C7: `run()` sends byte-identical serialized commands on every
invocation — the serialization is computed once and cached on the first run,
and subsequent runs send the cached string unchanged even if further
operations were appended to the batch in between. -/
theorem claim_C7_thm (b : Batch) (resp1 resp2 : String) (ops : List BOp)
    (b1 b2 : Batch) (s : String) (r1 : RunResult)
    (h1 : b.run resp1 = .ok (b1, s, r1)) (h2 : applyOps b1 ops = .ok b2) :
    b2.run resp2 = .ok (b2, s, projectResult b2.resultCommand resp2) := by
  have hc : b2.cache = some s := by
    rw [applyOps_cache ops b1 b2 h2, run_cache b b1 resp1 s r1 h1]
  unfold Batch.run
  rw [hc]

/-- Witness for C7: a batch first run (caching `r 5` plus terminator), then
extended with a read of address 6, still sends the original cached command. -/
theorem claim_C7_wit :
    Batch.run ⟨["r 5", "r 6"], [], some "r 5\n"⟩ "2" =
      .ok (⟨["r 5", "r 6"], [], some "r 5\n"⟩, "r 5\n", projectResult [] "2") :=
  claim_C7_thm ⟨["r 5"], [], none⟩ "1" "2" [BOp.rd 6 none]
    ⟨["r 5"], [], some "r 5\n"⟩ ⟨["r 5", "r 6"], [], some "r 5\n"⟩
    "r 5\n" (RunResult.list []) rfl rfl

/-- Claim C3 (amended): in the multi-result variant (gy33-i2c.js, part_002),
marks after indices 2 and 4 make `run()` return `[field 2, field 4]` in that
order and a single mark returns the bare scalar, but zero marks return the
EMPTY list, not the full decoded field list; the full unprojected field list
on zero marks is the behavior of the separate single-result variant
(part_000), which in turn allows at most one mark. -/
theorem claim_C3_thm :
    (∀ (b : Batch) (resp : String) (v2 v4 : Int), b.chain ≠ [] →
      b.resultCommand = [2, 4] →
      (decodeResp resp).getD 2 none = some v2 →
      (decodeResp resp).getD 4 none = some v4 →
      ∃ b1 s, b.run resp = .ok (b1, s, .list [.num v2, .num v4])) ∧
    (∀ (b : Batch) (resp : String) (k : Nat) (vk : Int), b.chain ≠ [] →
      b.resultCommand = [(k : Int)] →
      (decodeResp resp).getD k none = some vk →
      ∃ b1 s, b.run resp = .ok (b1, s, .scalar (.num vk))) ∧
    (∀ (b : Batch) (resp : String), b.chain ≠ [] → b.resultCommand = [] →
      ∃ b1 s, b.run resp = .ok (b1, s, .list [])) ∧
    (∀ (b : BatchS) (resp : String), b.chain ≠ [] → b.resultCommand = none →
      ∃ b1 s, b.run resp = .ok (b1, s, .list (fieldsToVals (decodeResp resp)))) ∧
    (∀ (b : BatchS) (resp : String) (k : Nat) (vk : Int), b.chain ≠ [] →
      b.resultCommand = some (k : Int) →
      (decodeResp resp).getD k none = some vk →
      ∃ b1 s, b.run resp = .ok (b1, s, .scalar (.num vk))) := by
  refine ⟨?_, ?_, ?_, ?_, ?_⟩
  · intro b resp v2 v4 hne hrc h2 h4
    have hp : projectResult b.resultCommand resp =
        .list [.num v2, .num v4] := by
      rw [hrc]
      have hq : projectResult [2, 4] resp =
          .list [project (decodeResp resp) 2, project (decodeResp resp) 4] := by
        simp [projectResult]
      rw [hq, project_num _ 2 _ (by norm_num) h2,
        project_num _ 4 _ (by norm_num) h4]
    obtain ⟨b1, s, hrun⟩ := batch_run_proj b resp hne
    exact ⟨b1, s, by rw [hrun, hp]⟩
  · intro b resp k vk hne hrc hk
    have hp : projectResult b.resultCommand resp = .scalar (.num vk) := by
      rw [hrc]
      have hq : projectResult [((k : Nat) : Int)] resp =
          .scalar (project (decodeResp resp) ((k : Nat) : Int)) := by
        simp [projectResult]
      rw [hq, project_num _ _ _ (Int.natCast_nonneg k) (by simpa using hk)]
    obtain ⟨b1, s, hrun⟩ := batch_run_proj b resp hne
    exact ⟨b1, s, by rw [hrun, hp]⟩
  · intro b resp hne hrc
    have hp : projectResult b.resultCommand resp = .list [] := by
      rw [hrc]
      unfold projectResult
      simp
    obtain ⟨b1, s, hrun⟩ := batch_run_proj b resp hne
    exact ⟨b1, s, by rw [hrun, hp]⟩
  · intro b resp hne hrc
    obtain ⟨b1, s, hrun⟩ := batchS_run_proj b resp hne
    rw [hrc] at hrun
    exact ⟨b1, s, hrun⟩
  · intro b resp k vk hne hrc hk
    obtain ⟨b1, s, hrun⟩ := batchS_run_proj b resp hne
    rw [hrc] at hrun
    simp only [projectResultS] at hrun
    rw [project_num _ _ _ (Int.natCast_nonneg k) (by simpa using hk)] at hrun
    exact ⟨b1, s, hrun⟩

/-- Witness for C3: a five-operation batch with marks on indices 2 and 4
returns the two fields in order; a single mark returns the bare scalar; zero
marks return the empty list; and the single-result variant with no mark
returns the full decoded field list. -/
theorem claim_C3_wit :
    (∃ b1 s, Batch.run ⟨["r 1", "r 2", "r 3", "r 4", "r 5"], [2, 4], none⟩ "a|b|c|d|e" =
      .ok (b1, s, .list [.num 12, .num 14])) ∧
    (∃ b1 s, Batch.run ⟨["r 1", "r 2", "r 3"], [(1 : Nat)], none⟩ "a|b|c" =
      .ok (b1, s, .scalar (.num 11))) ∧
    (∃ b1 s, Batch.run ⟨["r 1", "r 2"], [], none⟩ "a|b" =
      .ok (b1, s, .list [])) ∧
    (∃ b1 s, BatchS.run ⟨["r 1", "r 2"], none, none⟩ "a|b" =
      .ok (b1, s, .list (fieldsToVals (decodeResp "a|b")))) :=
  ⟨claim_C3_thm.1 ⟨["r 1", "r 2", "r 3", "r 4", "r 5"], [2, 4], none⟩ "a|b|c|d|e"
      12 14 (by simp) rfl (by decide) (by decide),
    claim_C3_thm.2.1 ⟨["r 1", "r 2", "r 3"], [(1 : Nat)], none⟩ "a|b|c" 1 11
      (by simp) rfl (by decide),
    claim_C3_thm.2.2.1 ⟨["r 1", "r 2"], [], none⟩ "a|b" (by simp) rfl,
    claim_C3_thm.2.2.2.1 ⟨["r 1", "r 2"], none, none⟩ "a|b" (by simp) rfl⟩

/-- Counterexample to C3 as stated: in the multi-result variant a batch with
five operations and ZERO marked indices returns the empty list from `run()`,
not the full decoded field list the claim requires. -/
theorem claim_C3_cex :
    Batch.run ⟨["r 1", "r 2", "r 3", "r 4", "r 5"], [], none⟩ "a|b|c|d|e" =
      .ok (⟨["r 1", "r 2", "r 3", "r 4", "r 5"], [], some "r 1|r 2|r 3|r 4|r 5\n"⟩,
        "r 1|r 2|r 3|r 4|r 5\n", .list []) ∧
    RunResult.list [] ≠
      .list (fieldsToVals (decodeResp "a|b|c|d|e")) :=
  ⟨rfl, by decide⟩

/-- Claim C8 (amended): the single-register read path rejects an unparseable
hex response with the parser error, but `Batch.run` performs no such check —
it splits on the pipe separator, maps `parseInt` over the fields and returns
`NaN` values for unparseable fields; it never fails with a malformed-response
error. -/
theorem claim_C8_thm :
    (∀ s : String, parseIntHex s = none →
      readDecode s = .error "Response parser error") ∧
    (∀ (b : Batch) (resp : String), b.chain ≠ [] → ∃ out, b.run resp = .ok out) ∧
    decodeResp "zz|5" = [none, some 5] := by
  refine ⟨?_, ?_, by decide⟩
  · intro s h
    unfold readDecode
    rw [h]
  · intro b resp hne
    obtain ⟨b1, s, hrun⟩ := batch_run_proj b resp hne
    exact ⟨(b1, s, projectResult b.resultCommand resp), hrun⟩

/-- Witness for C8: the single read path fails on the unparseable text `zz`
while a batch run over the same text still succeeds. -/
theorem claim_C8_wit :
    readDecode "zz" = .error "Response parser error" ∧
    (∃ out, Batch.run ⟨["r 1"], [0], none⟩ "zz" = .ok out) :=
  ⟨claim_C8_thm.1 "zz" rfl,
    claim_C8_thm.2.1 ⟨["r 1"], [0], none⟩ "zz" (by simp)⟩

/-- Counterexample to C8 as stated: a batch whose response field `zz` fails to
parse does not fail with a malformed-response error — `run` succeeds and hands
the caller a `NaN` value. -/
theorem claim_C8_cex :
    Batch.run ⟨["r 1"], [0], none⟩ "zz" =
      .ok (⟨["r 1"], [0], some "r 1\n"⟩, "r 1\n", .scalar .nan) := rfl

end Keyhole
